import Mathlib

/-!
Verification of the byte-quantity (Size) subsystem of blivet.

The repository ships the test suite of the subsystem (src/tests/size_test.py)
but not blivet/size.py itself, so the executable model below is built from the
natural-language specification (spec.md), with the behavior pinned down by the
assertions of the shipped test suite.  Exact decimal arithmetic is modelled by
unreduced integer fractions (the type Dec below) so that every operation is
executable by kernel reduction; rational-number statements about results are
phrased through the interpretation Dec.toRat into Lean's rationals.
-/

/-- Decidable equality for Except values, used to state concrete outcomes. -/
def exceptDecEq {α β : Type} [DecidableEq α] [DecidableEq β] : DecidableEq (Except α β) := fun a b =>
  match a, b with
  | .ok x, .ok y =>
    if h : x = y then .isTrue (by rw [h]) else .isFalse (fun c => by cases c; exact h rfl)
  | .error x, .error y =>
    if h : x = y then .isTrue (by rw [h]) else .isFalse (fun c => by cases c; exact h rfl)
  | .ok _, .error _ => .isFalse (fun c => by cases c)
  | .error _, .ok _ => .isFalse (fun c => by cases c)

instance {α β : Type} [DecidableEq α] [DecidableEq β] : DecidableEq (Except α β) := exceptDecEq

/-- Whitespace test for the spec grammar (space, tab, newline, carriage return). -/
def isSpaceC (c : Char) : Bool := decide (c = ' ' ∨ c = '\t' ∨ c = '\n' ∨ c = '\r')

/-- ASCII decimal digit test. -/
def isDigitChar (c : Char) : Bool := decide ('0' ≤ c ∧ c ≤ '9')

/-- Numeric value of an ASCII digit character. -/
def charVal (c : Char) : Nat := c.toNat - 48

/-- The ASCII digit character of a value below ten. -/
def digitChar (d : Nat) : Char :=
  match d with
  | 0 => '0' | 1 => '1' | 2 => '2' | 3 => '3' | 4 => '4'
  | 5 => '5' | 6 => '6' | 7 => '7' | 8 => '8' | _ => '9'

/-- ASCII lower-casing of a single character (A-Z fold to a-z, rest unchanged). -/
def lowerChar (c : Char) : Char :=
  if 'A' ≤ c ∧ c ≤ 'Z' then Char.ofNat (c.toNat + 32) else c

/-- Modelled from the spec: ASCII-fold (size._lowerASCII), lower-casing a token
for case-insensitive unit lookup. -/
def lowerASCII (s : String) : String := String.mk (s.data.map lowerChar)

/-- Digit list of a natural number, most significant first; fuel-based so that
the kernel can evaluate it. -/
def natToDigitsAux : Nat → Nat → List Char
  | 0, _ => []
  | fuel+1, n =>
    if n < 10 then [digitChar n] else natToDigitsAux fuel (n / 10) ++ [digitChar (n % 10)]

/-- Digit list of a natural number. -/
def natToDigits (n : Nat) : List Char := natToDigitsAux (n + 1) n

/-- Decimal numeral string of a natural number. -/
def natRepr (n : Nat) : String := String.mk (natToDigits n)

/-- Decimal numeral string of an integer (minus sign for negative values). -/
def intRepr (z : Int) : String :=
  if z < 0 then "-" ++ natRepr z.natAbs else natRepr z.natAbs

/-- Value of a digit string, most significant digit first. -/
def digitsVal (l : List Char) : Nat := l.foldl (fun a c => 10 * a + charVal c) 0

/-- An entry of the unit catalog: byte factor, prefix word and abbreviation.
Modelled from the spec: blivet's namedtuple of factor, prefix and abbr. -/
structure SizeUnit where
  factor : Nat
  pname : String
  abbr : String
deriving DecidableEq, Repr

/-- Modelled from the spec: the empty prefix (plain bytes, factor one). -/
def _EMPTY_UNIT : SizeUnit := ⟨1, "", ""⟩

/-- Modelled from the spec: the binary prefixes, powers of 1024. -/
def _BINARY_UNITS : List SizeUnit :=
  [⟨1024, "kibi", "Ki"⟩, ⟨1024^2, "mebi", "Mi"⟩, ⟨1024^3, "gibi", "Gi"⟩,
   ⟨1024^4, "tebi", "Ti"⟩, ⟨1024^5, "pebi", "Pi"⟩, ⟨1024^6, "exbi", "Ei"⟩,
   ⟨1024^7, "zebi", "Zi"⟩, ⟨1024^8, "yobi", "Yi"⟩]

/-- Modelled from the spec: the decimal prefixes, powers of 1000. -/
def _DECIMAL_UNITS : List SizeUnit :=
  [⟨1000, "kilo", "k"⟩, ⟨1000^2, "mega", "M"⟩, ⟨1000^3, "giga", "G"⟩,
   ⟨1000^4, "tera", "T"⟩, ⟨1000^5, "peta", "P"⟩, ⟨1000^6, "exa", "E"⟩,
   ⟨1000^7, "zetta", "Z"⟩, ⟨1000^8, "yotta", "Y"⟩]

/-- Modelled from the spec: the whole unit catalog, empty then binary then decimal. -/
def catalogUnits : List SizeUnit := [_EMPTY_UNIT] ++ _BINARY_UNITS ++ _DECIMAL_UNITS

/-- Modelled from the spec: the byte-word spellings (size._BYTES_WORDS). -/
def _BYTES_WORDS : List String := ["bytes", "byte"]

/-- Modelled from the spec: the byte symbol (size._BYTES_SYMBOL). -/
def _BYTES_SYMBOL : String := "B"

/-- Modelled from the spec: size._makeSpec without translation, concatenating a
prefix and a byte word or symbol, lower-casing unless asked not to. -/
def makeSpec (pfx w : String) (lower : Bool) : String :=
  if lower then lowerASCII (pfx ++ w) else pfx ++ w

/-- Full-word spelling of a catalog unit, e.g. kibibytes. -/
def fullSpell (u : SizeUnit) : String := makeSpec u.pname "bytes" true

/-- Abbreviation spelling of a catalog unit, e.g. kib. -/
def abbrSpell (u : SizeUnit) : String := makeSpec u.abbr _BYTES_SYMBOL true

/-- First letter of a token, lower-cased, as a one-letter string. -/
def lowHead (s : String) : String :=
  match (lowerASCII s).data with
  | c :: _ => String.mk [c]
  | [] => ""

/-- Modelled from the spec: every acceptable lowered spelling of a binary
prefix, including the bare single letter (the historical 1024 convention). -/
def binarySpecs (u : SizeUnit) : List String :=
  [lowerASCII (u.pname ++ "bytes"), lowerASCII (u.pname ++ "byte"),
   lowerASCII u.abbr, lowerASCII u.abbr ++ "b", lowHead u.abbr]

/-- Modelled from the spec: every acceptable lowered spelling of a decimal
prefix; the bare single letter is not among them (it is claimed by the binary
catalog), so kb is decimal while k alone is binary. -/
def decimalSpecs (u : SizeUnit) : List String :=
  [lowerASCII (u.pname ++ "bytes"), lowerASCII (u.pname ++ "byte"),
   lowerASCII u.abbr ++ "b"]

/-- Modelled from the spec: unit-token resolution (section 4.2).  The empty
token and the byte words mean plain bytes; otherwise the binary catalog is
searched before the decimal one, which realises the single-letter-is-binary
ambiguity rule.  Returns the byte factor. -/
def resolveUnit (tok : String) : Option Nat :=
  let t := lowerASCII tok
  if t = "" ∨ t = "b" ∨ t = "byte" ∨ t = "bytes" then some 1
  else
    match _BINARY_UNITS.find? (fun u => (binarySpecs u).contains t) with
    | some u => some u.factor
    | none =>
      match _DECIMAL_UNITS.find? (fun u => (decimalSpecs u).contains t) with
      | some u => some u.factor
      | none => none

/-- Exact decimal number modelled as an unreduced fraction with positive
denominator; every operation below is executable by kernel reduction. -/
structure Dec where
  num : Int
  den : Nat
deriving DecidableEq, Repr

/-- Embed an integer as an exact decimal. -/
def Dec.ofInt (z : Int) : Dec := ⟨z, 1⟩

/-- Embed a natural number as an exact decimal. -/
def Dec.ofNat (n : Nat) : Dec := ⟨n, 1⟩

/-- Interpretation of a Dec into the rational numbers, for statements. -/
def Dec.toRat (q : Dec) : ℚ := (q.num : ℚ) / (q.den : ℚ)

/-- Exact addition. -/
def Dec.add (a b : Dec) : Dec := ⟨a.num * b.den + b.num * a.den, a.den * b.den⟩

/-- Exact negation. -/
def Dec.neg (a : Dec) : Dec := ⟨-a.num, a.den⟩

/-- Exact subtraction. -/
def Dec.sub (a b : Dec) : Dec := Dec.add a (Dec.neg b)

/-- Exact multiplication. -/
def Dec.mul (a b : Dec) : Dec := ⟨a.num * b.num, a.den * b.den⟩

/-- Exact division by a natural number. -/
def Dec.divN (a : Dec) (d : Nat) : Dec := ⟨a.num, a.den * d⟩

/-- Exact division, keeping the denominator nonnegative. -/
def Dec.div (a b : Dec) : Dec :=
  ⟨(if b.num < 0 then -(a.num * b.den) else a.num * b.den), a.den * b.num.natAbs⟩

/-- Absolute value. -/
def Dec.abs (a : Dec) : Dec := ⟨(a.num.natAbs : Int), a.den⟩

/-- Truncation toward zero to an integer (Python's int() on a Decimal). -/
def Dec.trunc (a : Dec) : Int := a.num.tdiv a.den

/-- Boolean comparison by cross multiplication (denominators are positive). -/
def Dec.ble (a b : Dec) : Bool := decide (a.num * (b.den : Int) ≤ b.num * (a.den : Int))

/-- Boolean strict comparison by cross multiplication. -/
def Dec.blt (a b : Dec) : Bool := decide (a.num * (b.den : Int) < b.num * (a.den : Int))

/-- Integer power of an exact decimal (negative exponents invert). -/
def Dec.pow (a : Dec) (e : Int) : Dec :=
  if 0 ≤ e then ⟨a.num ^ e.toNat, a.den ^ e.toNat⟩
  else ⟨(if a.num < 0 ∧ (-e).toNat % 2 = 1 then -(a.den ^ (-e).toNat : Nat) else (a.den ^ (-e).toNat : Nat)),
        a.num.natAbs ^ (-e).toNat⟩

/-- Optional leading sign of a numeric literal; returns true when negative. -/
def parseSign (l : List Char) : Bool × List Char :=
  match l with
  | c :: r => if c = '-' then (true, r) else if c = '+' then (false, r) else (false, l)
  | [] => (false, [])

/-- Modelled from the spec: the mantissa of the literal grammar, digits with an
optional radix point; a lone radix point or no digits at all is invalid.
Returns the exact value and the unconsumed input. -/
def parseMantissa (l : List Char) : Option (Dec × List Char) :=
  let ip := l.takeWhile isDigitChar
  let r1 := l.dropWhile isDigitChar
  match r1 with
  | c :: r2 =>
    if c = '.' then
      let fp := r2.takeWhile isDigitChar
      let r3 := r2.dropWhile isDigitChar
      if ip.length + fp.length = 0 then none
      else some (⟨(digitsVal ip * 10 ^ fp.length + digitsVal fp : Nat), 10 ^ fp.length⟩, r3)
    else if ip.isEmpty then none else some (⟨(digitsVal ip : Nat), 1⟩, r1)
  | [] => if ip.isEmpty then none else some (⟨(digitsVal ip : Nat), 1⟩, [])

/-- Modelled from the spec: the optional exponent of the literal grammar; an
exponent marker with no digits after it is invalid (none). -/
def parseExponent (l : List Char) : Option (Int × List Char) :=
  match l with
  | c :: r =>
    if c = 'e' ∨ c = 'E' then
      let (eneg, r2) := parseSign r
      let ed := r2.takeWhile isDigitChar
      let r3 := r2.dropWhile isDigitChar
      if ed.isEmpty then none
      else some ((if eneg then -(digitsVal ed : Int) else (digitsVal ed : Int)), r3)
    else some (0, l)
  | [] => some (0, [])

/-- Strip leading and trailing whitespace from a character list. -/
def trimWs (l : List Char) : List Char :=
  ((l.dropWhile isSpaceC).reverse.dropWhile isSpaceC).reverse

/-- Scale an exact decimal by a signed power of ten. -/
def applyExp (q : Dec) (e : Int) : Dec :=
  if 0 ≤ e then ⟨q.num * (10 ^ e.toNat : Nat), q.den⟩ else ⟨q.num, q.den * 10 ^ (-e).toNat⟩

/-- Multiply an exact decimal by a unit's byte factor. -/
def applyUnit (q : Dec) (f : Nat) : Dec := ⟨q.num * f, q.den⟩

/-- Apply the optional leading minus sign. -/
def applySign (neg : Bool) (q : Dec) : Dec := if neg then Dec.neg q else q

/-- Modelled from the spec: size.parseSpec on a character list.  Grammar:
optional sign, mantissa, optional exponent, optional whitespace, optional unit
token; leading and trailing whitespace tolerated; anything else is a grammar
error, and a present but unknown unit token is an unknown-unit error.  The
result is the exact byte value. -/
def parseSpecL (l : List Char) : Except String Dec :=
  let l1 := l.dropWhile isSpaceC
  let (neg, l2) := parseSign l1
  match parseMantissa l2 with
  | none => .error "invalid size specification"
  | some (m, r) =>
    match parseExponent r with
    | none => .error "invalid size specification"
    | some (e, r2) =>
      let tok := trimWs r2
      if tok.any isSpaceC then .error "invalid size specification"
      else
        match resolveUnit (String.mk tok) with
        | none => .error "invalid unit specification"
        | some f => .ok (applySign neg (applyUnit (applyExp m e) f))

/-- Modelled from the spec: size.parseSpec, exact byte value of a spec string. -/
def parseSpec (s : String) : Except String Dec := parseSpecL s.data

/-- The Quantity value type: an exact whole number of bytes.
Modelled from the spec: blivet's Size stores a single byte count. -/
structure Size where
  bytes : Int
deriving DecidableEq, Repr

/-- Modelled from the spec: constructing a Size from a spec string parses the
string and truncates any sub-byte fractional remainder toward zero. -/
def Size.fromSpec (s : String) : Except String Size :=
  match parseSpec s with
  | .ok q => .ok ⟨Dec.trunc q⟩
  | .error e => .error e

/-- Modelled from the spec: constructing a Size directly from an integer. -/
def Size.fromInt (z : Int) : Size := ⟨z⟩

/-- Modelled from the spec: convertTo, the exact decimal division of the byte
value by the unit's factor; no rounding is applied. -/
def Size.convertTo (s : Size) (u : SizeUnit) : Dec := ⟨s.bytes, u.factor⟩

/-- Result of an arithmetic operation: either a Quantity (a Size) or a plain
arbitrary-precision number, making the dimensional contract explicit. -/
inductive OpResult where
  | qty (s : Size)
  | num (q : Dec)
deriving DecidableEq, Repr

/-- Whether an operation result is a Quantity. -/
def OpResult.isQuantity : OpResult → Bool
  | .qty _ => true
  | .num _ => false

/-- Size + Size, a Size (testArithmetic). -/
def Size.addSize (a b : Size) : OpResult := .qty ⟨a.bytes + b.bytes⟩

/-- Size - Size, a Size (testArithmetic). -/
def Size.subSize (a b : Size) : OpResult := .qty ⟨a.bytes - b.bytes⟩

/-- Size * Size, a Size per the repository's own testArithmetic assertion. -/
def Size.mulSize (a b : Size) : OpResult := .qty ⟨a.bytes * b.bytes⟩

/-- Size / Size, a Size per testArithmetic, truncated to whole bytes. -/
def Size.divSize (a b : Size) : OpResult :=
  .qty ⟨Dec.trunc (Dec.div (Dec.ofInt a.bytes) (Dec.ofInt b.bytes))⟩

/-- Size % Size, a Size (testArithmetic); remainder of truncated division. -/
def Size.modSize (a b : Size) : OpResult := .qty ⟨a.bytes.tmod b.bytes⟩

/-- Size ** Size, a plain number (testArithmetic). -/
def Size.powSize (a b : Size) : OpResult := .num (Dec.pow (Dec.ofInt a.bytes) b.bytes)

/-- Size + plain number, a Size. -/
def Size.addNum (a : Size) (x : Dec) : OpResult :=
  .qty ⟨Dec.trunc (Dec.add (Dec.ofInt a.bytes) x)⟩

/-- Size - plain number, a Size. -/
def Size.subNum (a : Size) (x : Dec) : OpResult :=
  .qty ⟨Dec.trunc (Dec.sub (Dec.ofInt a.bytes) x)⟩

/-- Size * plain number, a Size. -/
def Size.mulNum (a : Size) (x : Dec) : OpResult :=
  .qty ⟨Dec.trunc (Dec.mul (Dec.ofInt a.bytes) x)⟩

/-- Size / plain number, a Size. -/
def Size.divNum (a : Size) (x : Dec) : OpResult :=
  .qty ⟨Dec.trunc (Dec.div (Dec.ofInt a.bytes) x)⟩

/-- Size // plain number (floor division, toward zero on Decimals), a Size. -/
def Size.floordivNum (a : Size) (x : Dec) : OpResult :=
  .qty ⟨Dec.trunc (Dec.div (Dec.ofInt a.bytes) x)⟩

/-- Size % plain number, a Size. -/
def Size.modNum (a : Size) (x : Dec) : OpResult :=
  .qty ⟨Dec.trunc (Dec.sub (Dec.ofInt a.bytes)
    (Dec.mul (Dec.ofInt (Dec.trunc (Dec.div (Dec.ofInt a.bytes) x))) x))⟩

/-- Size ** plain integer, a plain number (testArithmetic). -/
def Size.powNum (a : Size) (e : Int) : OpResult := .num (Dec.pow (Dec.ofInt a.bytes) e)

/-- plain number + Size, a Size (testArithmetic). -/
def numAddSize (x : Dec) (a : Size) : OpResult :=
  .qty ⟨Dec.trunc (Dec.add x (Dec.ofInt a.bytes))⟩

/-- plain number - Size, a plain number (testArithmetic). -/
def numSubSize (x : Dec) (a : Size) : OpResult := .num (Dec.sub x (Dec.ofInt a.bytes))

/-- plain number * Size, a Size (testArithmetic). -/
def numMulSize (x : Dec) (a : Size) : OpResult :=
  .qty ⟨Dec.trunc (Dec.mul x (Dec.ofInt a.bytes))⟩

/-- plain number / Size, a plain number (testArithmetic). -/
def numDivSize (x : Dec) (a : Size) : OpResult := .num (Dec.div x (Dec.ofInt a.bytes))

/-- plain number ** Size, a plain number (testArithmetic). -/
def numPowSize (x : Dec) (a : Size) : OpResult := .num (Dec.pow x a.bytes)

/-- plain number % Size, a plain number (testArithmetic). -/
def numModSize (x : Dec) (a : Size) : OpResult :=
  .num (Dec.sub x (Dec.mul (Dec.ofInt (Dec.trunc (Dec.div x (Dec.ofInt a.bytes)))) (Dec.ofInt a.bytes)))

/-- Modelled from the spec: the half-up rounding-mode constant (decimal.ROUND_HALF_UP). -/
def ROUND_HALF_UP : String := "ROUND_HALF_UP"

/-- Modelled from the spec: the truncate-down rounding-mode constant (decimal.ROUND_DOWN). -/
def ROUND_DOWN : String := "ROUND_DOWN"

/-- Modelled from the spec: the ceiling-up rounding-mode constant (decimal.ROUND_UP). -/
def ROUND_UP : String := "ROUND_UP"

/-- Modelled from the spec: the default rounding mode is half-up. -/
def ROUND_DEFAULT : String := ROUND_HALF_UP

/-- Modelled from the spec: roundToNearest (section 4.4).  The granularity is a
byte count (a unit factor or a Size's bytes); a mode other than the three
supported ones is a rounding-mode error, a negative granularity is a
validation error, a zero granularity yields Size(0); otherwise the byte value
is divided by the granularity, rounded to an integer by the requested mode
(half-up, toward zero, or away from zero), and multiplied back. -/
def Size.roundToNearest (s : Size) (gran : Int) (mode : String) : Except String Size :=
  if mode = ROUND_HALF_UP ∨ mode = ROUND_DOWN ∨ mode = ROUND_UP then
    if gran < 0 then .error "invalid rounding granularity"
    else if gran = 0 then .ok ⟨0⟩
    else
      let m := s.bytes.natAbs
      let g := gran.toNat
      let n : Nat :=
        if mode = ROUND_HALF_UP then (2 * m + g) / (2 * g)
        else if mode = ROUND_DOWN then m / g
        else (m + g - 1) / g
      .ok ⟨(if s.bytes < 0 then -(n : Int) else (n : Int)) * gran⟩
  else .error "invalid rounding mode"

/-- Least power of ten divisible by d, searched up to exponent 400; every
denominator reached by the formatter divides a power of ten in that range. -/
def leastPow10 (d : Nat) : Nat :=
  (((List.range 400).find? (fun k => 10 ^ k % d == 0)).getD 0)

/-- Strip trailing zero digits from a fraction-digit list. -/
def stripZeros (l : List Char) : List Char :=
  (l.reverse.dropWhile (fun c => c == '0')).reverse

/-- Left-pad a digit list with zeros to the requested width. -/
def padZeros (l : List Char) (p : Nat) : List Char := List.replicate (p - l.length) '0' ++ l

/-- Render a nonnegative value scaled by ten to the p as a decimal numeral with
p fraction digits, stripping trailing zeros and the radix point if asked. -/
def renderScaled (n p : Nat) (strip : Bool) : String :=
  if p = 0 then natRepr n
  else
    let ip := natToDigits (n / 10 ^ p)
    let fr := padZeros (natToDigits (n % 10 ^ p)) p
    let frs := if strip then stripZeros fr else fr
    if frs.isEmpty then String.mk ip else String.mk (ip ++ '.' :: frs)

/-- Modelled from the spec: rendering of the chosen-unit value.  With a places
count, the magnitude is rounded half-up at that many decimal places; with none
the full exact expansion is rendered; trailing zeros are stripped afterwards
when strip is set. -/
def renderDec (q : Dec) (places : Option Nat) (strip : Bool) : String :=
  match places with
  | some p =>
    let n : Nat := (2 * q.num.natAbs * 10 ^ p + q.den) / (2 * q.den)
    let str := renderScaled n p strip
    if q.num < 0 ∧ n ≠ 0 then "-" ++ str else str
  | none =>
    let k := leastPow10 q.den
    let n : Nat := q.num.natAbs * 10 ^ k / q.den
    let str := renderScaled n k strip
    if q.num < 0 ∧ n ≠ 0 then "-" ++ str else str

/-- Modelled from the spec: display-unit selection (section 4.5), scanning the
binary prefixes largest factor first and keeping the first whose converted
magnitude is at least min_value; none means fall back to plain bytes. -/
def selectUnit (b : Int) (minValue : Dec) : Option SizeUnit :=
  _BINARY_UNITS.reverse.find? (fun u => Dec.ble minValue (Dec.abs ⟨b, u.factor⟩))

/-- Modelled from the spec: the rendering part of humanReadable, after the
display precision has been validated. -/
def humanReadableAux (s : Size) (places : Option Nat) (minValue : Dec) (strip : Bool) : String :=
  match selectUnit s.bytes minValue with
  | none => renderDec ⟨s.bytes, 1⟩ places strip ++ " " ++ _BYTES_SYMBOL
  | some u => renderDec ⟨s.bytes, u.factor⟩ places strip ++ " " ++ (u.abbr ++ _BYTES_SYMBOL)

/-- Modelled from the spec: humanReadable (section 4.5), untranslated.  A
negative max_places is a precision-argument error; max_places none renders the
full exact precision. -/
def Size.humanReadable (s : Size) (maxPlaces : Option Int) (minValue : Dec) (strip : Bool) :
    Except String String :=
  match maxPlaces with
  | some p =>
    if p < 0 then .error "SizePlacesError"
    else .ok (humanReadableAux s (some p.toNat) minValue strip)
  | none => .ok (humanReadableAux s none minValue strip)

/-- Modelled from the spec: the serialize half of the opaque lossless
round-trip cycle; the serialized form is the exact byte count as a numeral. -/
def serializeSize (s : Size) : String := intRepr s.bytes

/-- Modelled from the spec: the restore half of the round-trip cycle, reading
the serialized byte count back through the spec parser. -/
def deserializeSize (s : String) : Except String Size := Size.fromSpec s

/-! ### Helper lemmas about characters and digit strings -/

theorem digit_not_space {c : Char} (h : isDigitChar c = true) : isSpaceC c = false := by
  unfold isDigitChar at h
  unfold isSpaceC
  rw [decide_eq_true_eq] at h
  rw [decide_eq_false_iff_not]
  rintro (rfl | rfl | rfl | rfl) <;> revert h <;> decide

theorem digit_ne {c x : Char} (h : isDigitChar c = true) (hx : isDigitChar x = false) :
    ¬ c = x := by
  intro e
  subst e
  rw [h] at hx
  exact Bool.noConfusion hx

theorem charVal_digitChar {d : Nat} (h : d < 10) : charVal (digitChar d) = d := by
  interval_cases d <;> rfl

theorem isDigitChar_digitChar {d : Nat} (h : d < 10) : isDigitChar (digitChar d) = true := by
  interval_cases d <;> rfl

theorem takeWhile_append_all {p : Char → Bool} {ds : List Char} (l : List Char)
    (h : ∀ c ∈ ds, p c = true) : (ds ++ l).takeWhile p = ds ++ l.takeWhile p := by
  induction ds with
  | nil => simp
  | cons d ds ih =>
    simp only [List.cons_append, List.takeWhile_cons, h d (List.mem_cons_self d ds)]
    rw [ih (fun c hc => h c (List.mem_cons_of_mem d hc))]
    simp

theorem dropWhile_append_all {p : Char → Bool} {ds : List Char} (l : List Char)
    (h : ∀ c ∈ ds, p c = true) : (ds ++ l).dropWhile p = l.dropWhile p := by
  induction ds with
  | nil => simp
  | cons d ds ih =>
    simp only [List.cons_append, List.dropWhile_cons, h d (List.mem_cons_self d ds)]
    rw [ih (fun c hc => h c (List.mem_cons_of_mem d hc))]
    simp

theorem dropWhile_all_neg {p : Char → Bool} {l : List Char} (h : ∀ c ∈ l, p c = false) :
    l.dropWhile p = l := by
  cases l with
  | nil => rfl
  | cons d ds => simp [List.dropWhile_cons, h d (List.mem_cons_self d ds)]

theorem trimWs_space_cons {t : List Char} (h : ∀ c ∈ t, isSpaceC c = false) :
    trimWs (' ' :: t) = t := by
  have h2 : ∀ c ∈ t.reverse, isSpaceC c = false := fun c hc => h c (List.mem_reverse.mp hc)
  have hsp : isSpaceC ' ' = true := rfl
  simp [trimWs, List.dropWhile_cons, hsp, dropWhile_all_neg h, dropWhile_all_neg h2]

theorem any_eq_false_of {l : List Char} {p : Char → Bool} (h : ∀ c ∈ l, p c = false) :
    l.any p = false := by
  rw [Bool.eq_false_iff]
  intro hc
  obtain ⟨x, hx, hp⟩ := List.any_eq_true.mp hc
  rw [h x hx] at hp
  exact Bool.noConfusion hp

theorem digitsVal_append (l : List Char) (c : Char) :
    digitsVal (l ++ [c]) = 10 * digitsVal l + charVal c := by
  simp [digitsVal, List.foldl_append]

theorem digitsVal_natToDigitsAux :
    ∀ fuel n : Nat, n < fuel → digitsVal (natToDigitsAux fuel n) = n := by
  intro fuel
  induction fuel with
  | zero => intro n h; omega
  | succ fuel ih =>
    intro n h
    rw [natToDigitsAux]
    by_cases h10 : n < 10
    · rw [if_pos h10]
      simp [digitsVal, charVal_digitChar h10]
    · rw [if_neg h10]
      have hlt : n / 10 < fuel := by
        have : n / 10 < n := Nat.div_lt_self (by omega) (by omega)
        omega
      rw [digitsVal_append, ih (n / 10) hlt, charVal_digitChar (Nat.mod_lt n (by omega))]
      omega

theorem natToDigitsAux_digits :
    ∀ fuel n : Nat, ∀ c ∈ natToDigitsAux fuel n, isDigitChar c = true := by
  intro fuel
  induction fuel with
  | zero => intro n c hc; rw [natToDigitsAux] at hc; exact absurd hc (List.not_mem_nil c)
  | succ fuel ih =>
    intro n c hc
    rw [natToDigitsAux] at hc
    by_cases h10 : n < 10
    · rw [if_pos h10] at hc
      simp only [List.mem_singleton] at hc
      subst hc
      exact isDigitChar_digitChar h10
    · rw [if_neg h10] at hc
      simp only [List.mem_append, List.mem_singleton] at hc
      rcases hc with hc | hc
      · exact ih (n / 10) c hc
      · subst hc
        exact isDigitChar_digitChar (Nat.mod_lt n (by omega))

theorem digitsVal_natToDigits (n : Nat) : digitsVal (natToDigits n) = n :=
  digitsVal_natToDigitsAux (n + 1) n (by omega)

theorem natToDigits_digits (n : Nat) : ∀ c ∈ natToDigits n, isDigitChar c = true :=
  fun c hc => natToDigitsAux_digits (n + 1) n c hc

theorem natToDigits_ne_nil (n : Nat) : natToDigits n ≠ [] := by
  rw [natToDigits, natToDigitsAux]
  by_cases h10 : n < 10
  · rw [if_pos h10]; simp
  · rw [if_neg h10]; simp

theorem data_append (a b : String) : (a ++ b).data = a.data ++ b.data := by
  cases a; cases b; rfl

/-! ### Lemmas about the parser components -/

theorem parseSign_not_sign {x : Char} (t : List Char) (h1 : ¬ x = '-') (h2 : ¬ x = '+') :
    parseSign (x :: t) = (false, x :: t) := by
  simp [parseSign, h1, h2]

theorem parseSign_neg (t : List Char) : parseSign ('-' :: t) = (true, t) := rfl

theorem isEmpty_false_of_ne_nil {l : List Char} (h : l ≠ []) : l.isEmpty = false := by
  cases l with
  | nil => exact absurd rfl h
  | cons a l => rfl

theorem parseMantissa_sep {ds t : List Char} {x : Char} (hne : ds ≠ [])
    (hd : ∀ c ∈ ds, isDigitChar c = true)
    (hx : isDigitChar x = false) (hdot : ¬ x = '.') :
    parseMantissa (ds ++ x :: t) = some (⟨(digitsVal ds : Int), 1⟩, x :: t) := by
  simp only [parseMantissa]
  rw [takeWhile_append_all (x :: t) hd, dropWhile_append_all (x :: t) hd,
      List.takeWhile_cons, List.dropWhile_cons, hx]
  simp only [Bool.false_eq_true, if_false, List.append_nil]
  rw [if_neg hdot, isEmpty_false_of_ne_nil hne]
  simp

theorem parseMantissa_digits {ds : List Char} (hne : ds ≠ [])
    (hd : ∀ c ∈ ds, isDigitChar c = true) :
    parseMantissa ds = some (⟨(digitsVal ds : Int), 1⟩, []) := by
  simp only [parseMantissa]
  have h1 : ds.takeWhile isDigitChar = ds := by
    have := @takeWhile_append_all isDigitChar ds [] hd
    simpa using this
  have h2 : ds.dropWhile isDigitChar = [] := by
    have := @dropWhile_append_all isDigitChar ds [] hd
    simpa using this
  rw [h1, h2, isEmpty_false_of_ne_nil hne]
  simp

theorem parseExponent_not_e {x : Char} (t : List Char) (h1 : ¬ x = 'e') (h2 : ¬ x = 'E') :
    parseExponent (x :: t) = some (0, x :: t) := by
  simp [parseExponent, h1, h2]

theorem parseExponent_nil : parseExponent [] = some (0, []) := rfl

theorem resolveUnit_empty : resolveUnit (String.mk []) = some 1 := rfl

theorem parseSpecL_num_tok {ds t : List Char} {f : Nat}
    (hne : ds ≠ []) (hd : ∀ c ∈ ds, isDigitChar c = true)
    (hs : ∀ c ∈ t, isSpaceC c = false)
    (hr : resolveUnit (String.mk t) = some f) :
    parseSpecL (ds ++ ' ' :: t) = .ok ⟨(digitsVal ds : Int) * f, 1⟩ := by
  obtain ⟨d, ds2, rfl⟩ := List.exists_cons_of_ne_nil hne
  have hd0 : isDigitChar d = true := hd d (List.mem_cons_self d ds2)
  have hsp : isSpaceC d = false := digit_not_space hd0
  have hm : isDigitChar '-' = false := rfl
  have hp : isDigitChar '+' = false := rfl
  have hspc : isDigitChar ' ' = false := rfl
  simp only [parseSpecL, List.cons_append, List.dropWhile_cons, hsp, Bool.false_eq_true,
    if_false]
  rw [parseSign_not_sign (ds2 ++ ' ' :: t) (digit_ne hd0 hm) (digit_ne hd0 hp)]
  simp only []
  rw [show d :: (ds2 ++ ' ' :: t) = (d :: ds2) ++ ' ' :: t from rfl]
  rw [parseMantissa_sep hne hd hspc (by decide)]
  simp only []
  rw [parseExponent_not_e t (by decide) (by decide)]
  simp only []
  rw [trimWs_space_cons hs, any_eq_false_of hs]
  simp only [Bool.false_eq_true, if_false]
  rw [hr]
  simp only [applySign, applyUnit, applyExp, if_pos (le_refl (0 : Int))]
  simp [Dec.mk.injEq]

theorem parseSpecL_digits {ds : List Char} (hne : ds ≠ [])
    (hd : ∀ c ∈ ds, isDigitChar c = true) :
    parseSpecL ds = .ok ⟨(digitsVal ds : Int), 1⟩ := by
  obtain ⟨d, ds2, rfl⟩ := List.exists_cons_of_ne_nil hne
  have hd0 : isDigitChar d = true := hd d (List.mem_cons_self d ds2)
  have hsp : isSpaceC d = false := digit_not_space hd0
  have hm : isDigitChar '-' = false := rfl
  have hp : isDigitChar '+' = false := rfl
  simp only [parseSpecL, List.dropWhile_cons, hsp, Bool.false_eq_true, if_false]
  rw [parseSign_not_sign ds2 (digit_ne hd0 hm) (digit_ne hd0 hp)]
  simp only []
  rw [parseMantissa_digits hne hd]
  simp only []
  rw [parseExponent_nil]
  simp only []
  rw [show trimWs [] = [] from rfl]
  simp only [List.any_nil, Bool.false_eq_true, if_false]
  rw [resolveUnit_empty]
  simp only [applySign, applyUnit, applyExp, if_pos (le_refl (0 : Int))]
  simp [Dec.mk.injEq]

theorem parseSpecL_neg_digits {ds : List Char} (hne : ds ≠ [])
    (hd : ∀ c ∈ ds, isDigitChar c = true) :
    parseSpecL ('-' :: ds) = .ok ⟨-(digitsVal ds : Int), 1⟩ := by
  obtain ⟨d, ds2, rfl⟩ := List.exists_cons_of_ne_nil hne
  have hd0 : isDigitChar d = true := hd d (List.mem_cons_self d ds2)
  have hsp : isSpaceC d = false := digit_not_space hd0
  have hmsp : isSpaceC '-' = false := rfl
  simp only [parseSpecL, List.dropWhile_cons, hmsp, hsp, Bool.false_eq_true, if_false]
  rw [parseSign_neg]
  simp only []
  rw [parseMantissa_digits hne hd]
  simp only []
  rw [parseExponent_nil]
  simp only []
  rw [show trimWs [] = [] from rfl]
  simp only [List.any_nil, Bool.false_eq_true, if_false]
  rw [resolveUnit_empty]
  simp only [applySign, applyUnit, applyExp, if_pos (le_refl (0 : Int)), Dec.neg]
  simp [Dec.mk.injEq]

theorem parseSpec_intRepr (z : Int) : parseSpec (intRepr z) = .ok ⟨z, 1⟩ := by
  unfold intRepr
  by_cases hz : z < 0
  · rw [if_pos hz]
    unfold parseSpec
    have hdata : ("-" ++ natRepr z.natAbs).data = '-' :: natToDigits z.natAbs := by
      rw [data_append]
      rfl
    rw [hdata, parseSpecL_neg_digits (natToDigits_ne_nil _) (natToDigits_digits _),
        digitsVal_natToDigits]
    have : ((z.natAbs : Int)) = -z := Int.ofNat_natAbs_of_nonpos (le_of_lt hz)
    rw [this]
    simp
  · rw [if_neg hz]
    unfold parseSpec
    rw [show (natRepr z.natAbs).data = natToDigits z.natAbs from rfl,
        parseSpecL_digits (natToDigits_ne_nil _) (natToDigits_digits _),
        digitsVal_natToDigits, Int.natAbs_of_nonneg (not_lt.mp hz)]

theorem parseSpec_num_tok (n : Nat) (t : String) {f : Nat}
    (hr : resolveUnit t = some f) (ht : t.data ≠ [])
    (hs : ∀ c ∈ t.data, isSpaceC c = false) :
    parseSpec (natRepr n ++ " " ++ t) = .ok ⟨(n : Int) * f, 1⟩ := by
  have hdata : (natRepr n ++ " " ++ t).data = natToDigits n ++ ' ' :: t.data := by
    rw [data_append, data_append]
    show (natToDigits n ++ [' ']) ++ t.data = _
    rw [List.append_assoc]
    rfl
  have hr2 : resolveUnit (String.mk t.data) = some f := by
    cases t
    exact hr
  unfold parseSpec
  rw [hdata, parseSpecL_num_tok (natToDigits_ne_nil n) (natToDigits_digits n) hs hr2,
      digitsVal_natToDigits]

theorem trunc_int (a : Int) : Dec.trunc ⟨a, 1⟩ = a := by
  simp [Dec.trunc, Int.tdiv_one]

theorem toRat_int (a : Int) : Dec.toRat ⟨a, 1⟩ = (a : ℚ) := by
  simp [Dec.toRat]

theorem fromSpec_num_tok (n : Nat) (t : String) {f : Nat}
    (hr : resolveUnit t = some f) (ht : t.data ≠ [])
    (hs : ∀ c ∈ t.data, isSpaceC c = false) :
    Size.fromSpec (natRepr n ++ " " ++ t) = .ok ⟨(n : Int) * f⟩ := by
  unfold Size.fromSpec
  rw [parseSpec_num_tok n t hr ht hs]
  simp only []
  rw [trunc_int]

theorem trunc_le_toRat_nonneg (q : Dec) (hden : 0 < q.den) (hnum : 0 ≤ q.num) :
    (Dec.trunc q : ℚ) ≤ q.toRat ∧ q.toRat < Dec.trunc q + 1 := by
  obtain ⟨a, d⟩ := q
  simp only at hden hnum
  lift a to ℕ using hnum with m
  have hd : (0 : ℚ) < (d : ℚ) := by exact_mod_cast hden
  have ht : Dec.trunc ⟨(m : Int), d⟩ = ((m / d : ℕ) : Int) := rfl
  have hN : m < (m / d + 1) * d := by
    have h1 := Nat.div_add_mod m d
    have h2 := Nat.mod_lt m hden
    calc m = d * (m / d) + m % d := h1.symm
      _ < d * (m / d) + d := by omega
      _ = (m / d + 1) * d := by ring
  constructor
  · rw [ht, Dec.toRat]
    simp only
    rw [le_div_iff₀ hd]
    exact_mod_cast Nat.div_mul_le_self m d
  · rw [ht, Dec.toRat]
    simp only
    rw [div_lt_iff₀ hd]
    push_cast
    exact_mod_cast hN

theorem toRat_neg (a : Int) (d : Nat) : Dec.toRat ⟨-a, d⟩ = -Dec.toRat ⟨a, d⟩ := by
  simp [Dec.toRat, neg_div]

theorem trunc_ge_toRat_neg (q : Dec) (hden : 0 < q.den) (hnum : q.num < 0) :
    q.toRat ≤ (Dec.trunc q : ℚ) ∧ (Dec.trunc q : ℚ) < q.toRat + 1 := by
  obtain ⟨a, d⟩ := q
  simp only at hden hnum
  have h := trunc_le_toRat_nonneg ⟨-a, d⟩ hden (by simp only; omega)
  have ht : Dec.trunc ⟨a, d⟩ = -Dec.trunc ⟨-a, d⟩ := by
    simp [Dec.trunc, Int.neg_tdiv]
  have hr : Dec.toRat ⟨a, d⟩ = -Dec.toRat ⟨-a, d⟩ := by
    rw [toRat_neg]
    ring
  rw [ht, hr]
  push_cast
  constructor
  · linarith [h.2]
  · linarith [h.1]

/-! ### Lemmas combining the parser with unit tokens -/

theorem tok_parse_all (n : Nat) (t : String) (f : Nat)
    (hr : resolveUnit t = some f) (ht : t.data ≠ [])
    (hs : ∀ c ∈ t.data, isSpaceC c = false) :
    Size.fromSpec (natRepr n ++ " " ++ t) = .ok ⟨(n : Int) * f⟩
    ∧ (parseSpec (natRepr n ++ " " ++ t)).map Dec.toRat = .ok ((n : ℚ) * f) := by
  constructor
  · exact fromSpec_num_tok n t hr ht hs
  · rw [parseSpec_num_tok n t hr ht hs]
    simp only [Except.map, Dec.toRat]
    push_cast
    norm_num

theorem convertTo_exact (n : Nat) (u : SizeUnit) (hf : 0 < u.factor) :
    (Size.convertTo ⟨(n : Int) * u.factor⟩ u).toRat = (n : ℚ) := by
  have hne : ((u.factor : ℚ)) ≠ 0 := ne_of_gt (by exact_mod_cast hf)
  simp only [Size.convertTo, Dec.toRat]
  push_cast
  field_simp

/-! ### Claim theorems -/

/-- Claim C1: constructing a Size truncates the exact byte value toward zero to
the nearest whole byte, not by arithmetic rounding: Size of 1024.6 bytes is
1024 (not 1025), one 1025th of a KiB truncates to 0 bytes and one 1023rd of a
KiB truncates to 1 byte; in general the constructed byte count Dec.trunc q is
the exact value rounded toward zero. -/
theorem C1_truncation_toward_zero :
    Size.fromSpec "1024.6" = .ok ⟨1024⟩
    ∧ Size.fromSpec "1024.6" ≠ .ok ⟨1025⟩
    ∧ Size.fromSpec "0.0009756097560975609 KiB" = .ok ⟨0⟩
    ∧ Size.fromSpec "0.0009775171065493646 KiB" = .ok ⟨1⟩
    ∧ (∀ q : Dec, 0 < q.den → 0 ≤ q.num →
        ((Dec.trunc q : ℚ) ≤ q.toRat ∧ q.toRat < Dec.trunc q + 1))
    ∧ (∀ q : Dec, 0 < q.den → q.num < 0 →
        (q.toRat ≤ (Dec.trunc q : ℚ) ∧ (Dec.trunc q : ℚ) < q.toRat + 1))
    ∧ (∀ str q, parseSpec str = .ok q → Size.fromSpec str = .ok ⟨Dec.trunc q⟩) := by
  refine ⟨by decide, by decide, by decide, by decide,
    trunc_le_toRat_nonneg, trunc_ge_toRat_neg, ?_⟩
  intro str q h
  unfold Size.fromSpec
  rw [h]

/-- Witness for C1 at the concrete input 1024.6 = 10246/10. -/
theorem C1_witness :
    parseSpec "1024.6" = .ok ⟨10246, 10⟩
    ∧ (Dec.trunc ⟨10246, 10⟩ : ℚ) ≤ Dec.toRat ⟨10246, 10⟩
    ∧ Dec.toRat ⟨10246, 10⟩ < Dec.trunc ⟨10246, 10⟩ + 1
    ∧ Size.fromSpec "1024.6" = .ok ⟨Dec.trunc ⟨10246, 10⟩⟩ := by
  have h5 := C1_truncation_toward_zero.2.2.2.2.1 ⟨10246, 10⟩ (by decide) (by decide)
  have h7 := C1_truncation_toward_zero.2.2.2.2.2.2 "1024.6" ⟨10246, 10⟩ (by decide)
  exact ⟨by decide, h5.1, h5.2, h7⟩

/-- Claim C2 as stated is false on this code: the repository's own
testArithmetic asserts that the product of two Sizes is a Size, not a plain
number; at Size(2 GiB) times itself the result is a Quantity. -/
theorem C2_counterexample :
    ¬ (OpResult.isQuantity (Size.mulSize ⟨2147483648⟩ ⟨2147483648⟩) = false) := by
  decide

/-- Claim C2 (amended): Q1 ^ N, N ^ Q1 and Q1 ^ Q2 yield a plain
arbitrary-precision number, while Q1 × Q2 yields a Quantity, and Q+Q, Q−Q,
Q×N, N×Q, Q/N, Q//N, Q%Q and Q%N each yield a Quantity. -/
theorem C2_result_types : ∀ (a b : Size) (x : Dec) (e : Int),
    OpResult.isQuantity (Size.mulSize a b) = true
    ∧ OpResult.isQuantity (Size.powSize a b) = false
    ∧ OpResult.isQuantity (Size.powNum a e) = false
    ∧ OpResult.isQuantity (numPowSize x a) = false
    ∧ OpResult.isQuantity (Size.addSize a b) = true
    ∧ OpResult.isQuantity (Size.subSize a b) = true
    ∧ OpResult.isQuantity (Size.mulNum a x) = true
    ∧ OpResult.isQuantity (numMulSize x a) = true
    ∧ OpResult.isQuantity (Size.divNum a x) = true
    ∧ OpResult.isQuantity (Size.floordivNum a x) = true
    ∧ OpResult.isQuantity (Size.modSize a b) = true
    ∧ OpResult.isQuantity (Size.modNum a x) = true := by
  intro a b x e
  exact ⟨rfl, rfl, rfl, rfl, rfl, rfl, rfl, rfl, rfl, rfl, rfl, rfl⟩

/-- Claim C3: roundToNearest accepts exactly the three modes half-up (the
default), truncate-down and ceiling-up, rejects any other mode (including
decimal.ROUND_HALF_DOWN), rejects a negative granularity, and maps a zero
granularity to Size(0). -/
theorem C3_rounding_modes : ∀ (s : Size) (g : Int) (mode : String),
    (¬ (mode = ROUND_HALF_UP ∨ mode = ROUND_DOWN ∨ mode = ROUND_UP) →
      (s.roundToNearest g mode).isOk = false)
    ∧ ((mode = ROUND_HALF_UP ∨ mode = ROUND_DOWN ∨ mode = ROUND_UP) → g < 0 →
      (s.roundToNearest g mode).isOk = false)
    ∧ ((mode = ROUND_HALF_UP ∨ mode = ROUND_DOWN ∨ mode = ROUND_UP) → 0 ≤ g →
      (s.roundToNearest g mode).isOk = true)
    ∧ ((mode = ROUND_HALF_UP ∨ mode = ROUND_DOWN ∨ mode = ROUND_UP) →
      s.roundToNearest 0 mode = .ok ⟨0⟩)
    ∧ (s.roundToNearest g "ROUND_HALF_DOWN").isOk = false
    ∧ ROUND_DEFAULT = ROUND_HALF_UP := by
  intro s g mode
  have hcond : ¬ (("ROUND_HALF_DOWN" = ROUND_HALF_UP ∨ "ROUND_HALF_DOWN" = ROUND_DOWN ∨
      "ROUND_HALF_DOWN" = ROUND_UP)) := by decide
  refine ⟨?_, ?_, ?_, ?_, ?_, rfl⟩
  · intro h
    simp [Size.roundToNearest, h, Except.isOk, Except.toBool]
  · intro h hg
    simp [Size.roundToNearest, h, hg, Except.isOk, Except.toBool]
  · intro h hg
    by_cases hg0 : g = 0
    · subst hg0
      simp [Size.roundToNearest, h, Except.isOk, Except.toBool]
    · have hng : ¬ g < 0 := not_lt.mpr hg
      simp [Size.roundToNearest, h, hng, hg0, Except.isOk, Except.toBool]
  · intro h
    simp [Size.roundToNearest, h]
  · simp [Size.roundToNearest, hcond, Except.isOk, Except.toBool]

/-- Witness for C3 at concrete inputs: the foreign decimal mode
ROUND_HALF_DOWN is rejected, granularity -1 is rejected, granularity 0 gives
Size(0), and a supported mode with a nonnegative granularity succeeds. -/
theorem C3_witness :
    ((Size.mk 5).roundToNearest 2 "ROUND_HALF_DOWN").isOk = false
    ∧ ((Size.mk 5).roundToNearest (-1) ROUND_DOWN).isOk = false
    ∧ (Size.mk 5).roundToNearest 0 ROUND_HALF_UP = .ok ⟨0⟩
    ∧ ((Size.mk 5).roundToNearest 2 ROUND_UP).isOk = true := by
  refine ⟨(C3_rounding_modes ⟨5⟩ 2 "ROUND_HALF_DOWN").2.2.2.2.1, ?_, ?_, ?_⟩
  · exact (C3_rounding_modes ⟨5⟩ (-1) ROUND_DOWN).2.1 (Or.inr (Or.inl rfl)) (by decide)
  · exact (C3_rounding_modes ⟨5⟩ 0 ROUND_HALF_UP).2.2.2.1 (Or.inl rfl)
  · exact (C3_rounding_modes ⟨5⟩ 2 ROUND_UP).2.2.1 (Or.inr (Or.inr rfl)) (by decide)

/-- Claim C4: every malformed spec (exponent with no mantissa, dangling
exponent, lone radix point, version-like multi-dot literal, bare operator
fragment, leading or trailing stray words) is a parse error, never coerced to
zero or partially parsed. -/
theorem C4_grammar_errors :
    (parseSpec "e+0").isOk = false
    ∧ (parseSpec "1.0e+ KiB").isOk = false
    ∧ (parseSpec ". KiB").isOk = false
    ∧ (parseSpec "1.0.0").isOk = false
    ∧ (parseSpec "+ 1 KiB").isOk = false
    ∧ (parseSpec "- 1 KiB").isOk = false
    ∧ (parseSpec "1 KiB just a lot of stray characters").isOk = false
    ∧ (parseSpec "just 1 KiB").isOk = false := by
  exact ⟨rfl, rfl, rfl, rfl, rfl, rfl, rfl, rfl⟩

/-- Claim C5: for every number n, a bare single-letter prefix abbreviation is
binary (n K and n k give n times 1024 bytes, n g and n G give n times 1024
cubed) while the two-letter decimal form with B is decimal (n KB gives n times
1000), and Ki / KiB are binary. -/
theorem C5_single_letter_is_binary : ∀ n : Nat,
    (parseSpec (natRepr n ++ " " ++ "K")).map Dec.toRat = .ok ((n : ℚ) * 1024)
    ∧ (parseSpec (natRepr n ++ " " ++ "k")).map Dec.toRat = .ok ((n : ℚ) * 1024)
    ∧ (parseSpec (natRepr n ++ " " ++ "KB")).map Dec.toRat = .ok ((n : ℚ) * 1000)
    ∧ (parseSpec (natRepr n ++ " " ++ "Ki")).map Dec.toRat = .ok ((n : ℚ) * 1024)
    ∧ (parseSpec (natRepr n ++ " " ++ "KiB")).map Dec.toRat = .ok ((n : ℚ) * 1024)
    ∧ (parseSpec (natRepr n ++ " " ++ "g")).map Dec.toRat = .ok ((n : ℚ) * 1024 ^ 3)
    ∧ (parseSpec (natRepr n ++ " " ++ "G")).map Dec.toRat = .ok ((n : ℚ) * 1024 ^ 3) := by
  intro n
  refine ⟨?_, ?_, ?_, ?_, ?_, ?_, ?_⟩
  · exact (tok_parse_all n "K" 1024 (by decide) (by decide) (by decide)).2
  · exact (tok_parse_all n "k" 1024 (by decide) (by decide) (by decide)).2
  · exact (tok_parse_all n "KB" 1000 (by decide) (by decide) (by decide)).2
  · exact (tok_parse_all n "Ki" 1024 (by decide) (by decide) (by decide)).2
  · exact (tok_parse_all n "KiB" 1024 (by decide) (by decide) (by decide)).2
  · have h := (tok_parse_all n "g" (1024 ^ 3) (by decide) (by decide) (by decide)).2
    rw [h]
    norm_num
  · have h := (tok_parse_all n "G" (1024 ^ 3) (by decide) (by decide) (by decide)).2
    rw [h]
    norm_num

/-- Claim C6: humanReadable picks the largest binary prefix whose converted
magnitude reaches min_value (9 MiB at min_value 10 renders as 9216 KiB), falls
back to plain bytes below min_value at the smallest prefix (7.18 KiB, i.e.
7352 bytes, renders in B), and beyond the largest prefix stays a multiple of
YiB (1024^9 bytes is 1024 YiB, 1024^10 bytes is 1048576 YiB); in general a
selected prefix always satisfies the min_value bound and selection fails only
when even KiB is below min_value. -/
theorem C6_unit_selection :
    Size.fromSpec "9 MiB" = .ok ⟨9437184⟩
    ∧ (Size.mk 9437184).humanReadable (some 2) (Dec.ofNat 10) true = .ok "9216 KiB"
    ∧ Size.fromSpec "7.18 KiB" = .ok ⟨7352⟩
    ∧ (Size.mk 7352).humanReadable (some 2) (Dec.ofNat 10) true = .ok "7352 B"
    ∧ (Size.mk (1024 ^ 9)).humanReadable (some 2) (Dec.ofNat 1) true = .ok "1024 YiB"
    ∧ (Size.mk (1024 ^ 10)).humanReadable (some 2) (Dec.ofNat 1) true = .ok "1048576 YiB"
    ∧ (∀ (b : Int) (mv : Dec),
        match selectUnit b mv with
        | some u => Dec.ble mv (Dec.abs ⟨b, u.factor⟩) = true
        | none => Dec.ble mv (Dec.abs ⟨b, 1024⟩) = false) := by
  refine ⟨by decide, by decide, by decide, by decide, by decide, by decide, ?_⟩
  intro b mv
  cases h : selectUnit b mv with
  | some u =>
    simp only []
    unfold selectUnit at h
    exact @List.find?_some SizeUnit (fun v => Dec.ble mv (Dec.abs ⟨b, v.factor⟩))
      u _BINARY_UNITS.reverse h
  | none =>
    simp only []
    unfold selectUnit at h
    have hmem : (⟨1024, "kibi", "Ki"⟩ : SizeUnit) ∈ _BINARY_UNITS.reverse := by decide
    have hall := List.find?_eq_none.mp h _ hmem
    rw [Bool.eq_false_iff]
    exact hall

/-- Claim C7: for every catalog unit and positive count n, both the full-word
spelling and the abbreviation spelling of n units parse to exactly n times the
unit's factor bytes, and convertTo on that Quantity returns exactly n. -/
theorem C7_catalog_roundtrip : ∀ n : Nat, 0 < n → ∀ u ∈ catalogUnits,
    Size.fromSpec (natRepr n ++ " " ++ fullSpell u) = .ok ⟨(n : Int) * u.factor⟩
    ∧ Size.fromSpec (natRepr n ++ " " ++ abbrSpell u) = .ok ⟨(n : Int) * u.factor⟩
    ∧ (parseSpec (natRepr n ++ " " ++ fullSpell u)).map Dec.toRat = .ok ((n : ℚ) * u.factor)
    ∧ (Size.convertTo ⟨(n : Int) * u.factor⟩ u).toRat = (n : ℚ) := by
  intro n hn u hu
  simp only [catalogUnits, _EMPTY_UNIT, _BINARY_UNITS, _DECIMAL_UNITS, List.mem_append,
    List.mem_cons, List.mem_singleton, List.not_mem_nil, or_false] at hu
  rcases hu with (rfl | rfl | rfl | rfl | rfl | rfl | rfl | rfl | rfl) |
    (rfl | rfl | rfl | rfl | rfl | rfl | rfl | rfl) <;>
    exact ⟨(tok_parse_all n _ _ (by decide) (by decide) (by decide)).1,
      (tok_parse_all n _ _ (by decide) (by decide) (by decide)).1,
      (tok_parse_all n _ _ (by decide) (by decide) (by decide)).2,
      convertTo_exact n _ (by decide)⟩

/-- Witness for C7 at n = 47 and the kibi unit. -/
theorem C7_witness :
    Size.fromSpec (natRepr 47 ++ " " ++ fullSpell ⟨1024, "kibi", "Ki"⟩) =
      .ok ⟨(47 : Int) * (⟨1024, "kibi", "Ki"⟩ : SizeUnit).factor⟩
    ∧ Size.fromSpec (natRepr 47 ++ " " ++ abbrSpell ⟨1024, "kibi", "Ki"⟩) =
      .ok ⟨(47 : Int) * (⟨1024, "kibi", "Ki"⟩ : SizeUnit).factor⟩
    ∧ (parseSpec (natRepr 47 ++ " " ++ fullSpell ⟨1024, "kibi", "Ki"⟩)).map Dec.toRat =
      .ok ((47 : ℚ) * (⟨1024, "kibi", "Ki"⟩ : SizeUnit).factor)
    ∧ (Size.convertTo ⟨(47 : Int) * (⟨1024, "kibi", "Ki"⟩ : SizeUnit).factor⟩
        ⟨1024, "kibi", "Ki"⟩).toRat = (47 : ℚ) :=
  C7_catalog_roundtrip 47 (by decide) ⟨1024, "kibi", "Ki"⟩ (by decide)

/-- Claim C8: humanReadable fails with the precision-argument error exactly
when max_places is negative; max_places 0 is valid and renders with no
fraction digits (Size 500 renders as 500 B), and max_places none renders the
full exact precision (65537 bytes renders as 64.0009765625 KiB, while two
places round it to 64 KiB). -/
theorem C8_max_places :
    (∀ (s : Size) (p : Int) (mv : Dec) (st : Bool),
      ((s.humanReadable (some p) mv st).isOk = false ↔ p < 0))
    ∧ (∀ (s : Size) (mv : Dec) (st : Bool), (s.humanReadable none mv st).isOk = true)
    ∧ (Size.mk 500).humanReadable (some 0) (Dec.ofNat 1) true = .ok "500 B"
    ∧ (Size.mk 65537).humanReadable none (Dec.ofNat 1) true = .ok "64.0009765625 KiB"
    ∧ (Size.mk 65537).humanReadable (some 2) (Dec.ofNat 1) true = .ok "64 KiB" := by
  refine ⟨?_, ?_, by decide, by decide, by decide⟩
  · intro s p mv st
    by_cases hp : p < 0
    · simp [Size.humanReadable, hp, Except.isOk, Except.toBool]
    · simp [Size.humanReadable, hp, Except.isOk, Except.toBool]
  · intro s mv st
    simp [Size.humanReadable, Except.isOk, Except.toBool]

/-- Claim C9: restoring a Quantity from its serialized form yields a Quantity
equal to the original; the cycle preserves the exact byte value. -/
theorem C9_serialize_roundtrip : ∀ s : Size, deserializeSize (serializeSize s) = .ok s := by
  intro s
  cases s with
  | mk z =>
    show Size.fromSpec (intRepr z) = .ok ⟨z⟩
    unfold Size.fromSpec
    rw [parseSpec_intRepr]
    simp only []
    rw [trunc_int]

/-- Claim C10: dividing a Size by a non-zero Size yields a Size (a Quantity),
not a plain number, as asserted by testArithmetic. -/
theorem C10_div_size_is_size : ∀ q r : Size, r ≠ ⟨0⟩ →
    OpResult.isQuantity (Size.divSize q r) = true := by
  intro q r h
  rfl

/-- Witness for C10 at 2 GiB divided by itself. -/
theorem C10_witness :
    (⟨2147483648⟩ : Size) ≠ ⟨0⟩
    ∧ OpResult.isQuantity (Size.divSize ⟨2147483648⟩ ⟨2147483648⟩) = true :=
  ⟨by decide, C10_div_size_is_size ⟨2147483648⟩ ⟨2147483648⟩ (by decide)⟩
